import Mathlib

/-!
# Verification of the attolytics core (schema-driven type system and ingestion pipeline)

A shallow embedding of the Rust sources (`src/types.rs`, `src/schema.rs`,
`src/db.rs`, `src/main.rs`) of the attolytics event-ingestion server,
together with theorems settling the specification claims about it.

Modelling conventions:
* `serde_json::Value` is embedded as the inductive `Json`; its numeric payload
  keeps serde's three internal variants (i64, u64, f64).  Finite f64 values are
  modelled as exact rationals; no verified statement observes bit-level
  rounding of a float cast, so the `as f32` narrowing keeps the rational value.
* The chrono RFC-2822 parser is an external library; functions that call it
  take it as an explicit parameter `parse : String → Option DateTimeFO` and
  the theorems quantify over it.
* SQL `NULL` (a Rust `None::<T>` boxed as `ToSql`) is the stored value
  `SqlValue.null`; a `Box<Option<Option<i32>>>` containing `Some(None)` also
  serializes as SQL `NULL`, which the injections below reflect.
* The Postgres connection, transaction and statement execution are external
  infrastructure; their success or failure is an oracle `DbEnv`, and a
  transaction is the list of rows it would make visible on a successful
  commit.
-/

/-- `i64::MAX`. -/
def i64Max : Int := 2 ^ 63 - 1

/-- `i32::MIN`. -/
def i32Min : Int := -(2 ^ 31)

/-- `i32::MAX`. -/
def i32Max : Int := 2 ^ 31 - 1

/-- The three internal numeric variants of a `serde_json::Number`:
a value parsed as `i64`, as `u64`, or as a finite `f64` (kept exact as `ℚ`). -/
inductive JsonNum where
  | i (n : Int)
  | u (n : Nat)
  | f (q : Rat)
deriving DecidableEq, Repr

/-- `serde_json::Value`. -/
inductive Json where
  | null
  | bool (b : Bool)
  | num (m : JsonNum)
  | str (s : String)
  | arr (elems : List Json)
  | obj (fields : List (String × Json))
deriving Repr

/-- First-match association-list lookup, the observable behaviour of the
`HashMap`/map lookups used by the sources (keys are unique in every map the
program builds). -/
def lookup_assoc {α : Type} : List (String × α) → String → Option α
  | [], _ => none
  | (k, v) :: rest, key => if k = key then some v else lookup_assoc rest key

/-- `serde_json::Number::as_i64`: the i64 variant always succeeds, the u64
variant succeeds iff it fits in `i64`, the f64 variant always fails. -/
def JsonNum.as_i64 : JsonNum → Option Int
  | .i n => some n
  | .u n => if (n : Int) ≤ i64Max then some (n : Int) else none
  | .f _ => none

/-- `serde_json::Number::as_f64`, which succeeds on every variant.  (The
`i64`/`u64` → `f64` cast can round magnitudes above `2^53`; the exact value is
kept here, and no verified statement observes that rounding.) -/
def JsonNum.as_f64 : JsonNum → Option Rat
  | .i n => some (n : Rat)
  | .u n => some (n : Rat)
  | .f q => some q

/-- `Value::as_bool`. -/
def Json.as_bool : Json → Option Bool
  | .bool b => some b
  | _ => none

/-- `Value::as_i64`. -/
def Json.as_i64 : Json → Option Int
  | .num m => m.as_i64
  | _ => none

/-- `Value::as_f64`. -/
def Json.as_f64 : Json → Option Rat
  | .num m => m.as_f64
  | _ => none

/-- `Value::as_str`. -/
def Json.as_str : Json → Option String
  | .str s => some s
  | _ => none

/-- `Value::is_number`. -/
def Json.is_number : Json → Bool
  | .num _ => true
  | _ => false

/-- `Value::is_string`. -/
def Json.is_string : Json → Bool
  | .str _ => true
  | _ => false

/-- `value[key]` (the `Index<&str>` impl): field lookup on an object, `Null`
for a missing field and on every non-object value. -/
def Json.index (j : Json) (key : String) : Json :=
  match j with
  | .obj fields => (lookup_assoc fields key).getD .null
  | _ => .null

/-- The semantic column type (`types.rs`, `enum Type`; `Type` is reserved in
Lean, hence `Ty`). -/
inductive Ty where
  | bool
  | i32
  | i64
  | f32
  | f64
  | string
  | timestamp
deriving DecidableEq, Repr

/-- `enum ConversionError` (`types.rs`).  The chrono parse-error payload of
`TimestampFormat` is an external library detail and is not carried. -/
inductive ConversionError where
  | missingValue (key : String)
  | timestampFormat
deriving DecidableEq, Repr

/-- A `chrono::DateTime<FixedOffset>`: epoch seconds, subsecond nanoseconds,
and the fixed offset in seconds. -/
structure DateTimeFO where
  secs : Int
  nanos : Nat
  offsetSecs : Int
deriving DecidableEq, Repr

/-- A typed value handed to Postgres (`Box<dyn ToSql>`); `null` is a boxed
`None`, which the postgres crate serializes as SQL `NULL`. -/
inductive SqlValue where
  | null
  | bool (b : Bool)
  | i32 (n : Int)
  | i64 (n : Int)
  | f32 (x : Rat)
  | f64 (x : Rat)
  | varchar (s : String)
  | timestamptz (t : DateTimeFO)
deriving DecidableEq, Repr

/-- `fn unwrap_if_required` (`types.rs`), generic over the `ToSql`
serialization `inj` of the payload type: with `required` set a missing value
is the `MissingValue` error, otherwise the boxed `Option` serializes `None`
as SQL `NULL`. -/
def unwrap_if_required {α : Type} (inj : α → SqlValue) (key : String)
    (option : Option α) (required : Bool) : Except ConversionError SqlValue :=
  if required then
    match option with
    | some v => .ok (inj v)
    | none => .error (.missingValue key)
  else
    match option with
    | some v => .ok (inj v)
    | none => .ok .null

/-- `i32::try_from(i).ok()` on an `i64`. -/
def i32_try_from (n : Int) : Option Int :=
  if i32Min ≤ n ∧ n ≤ i32Max then some n else none

/-- The `ToSql` serialization of an `Option<i32>` (an inner `None` is SQL
`NULL`), used by the `Type::I32` arm whose payload is `Option<Option<i32>>`. -/
def injOptI32 : Option Int → SqlValue
  | some n => .i32 n
  | none => .null

/-- Rust `f64::trunc` on the exact rational value (round toward zero). -/
def ratTrunc (q : Rat) : Int :=
  if q < 0 then -((-q).floor) else q.floor

/-- The numeric branch of `json_to_date_time`:
`NaiveDateTime::from_timestamp(timestamp.floor() as i64, (1e9 * timestamp.fract()) as u32)`
with `FixedOffset::west(0)`.  `fract` is trunc-based, and the saturating
`as u32` cast sends a negative nanosecond count to `0`, which `Int.toNat`
reproduces. -/
def epochDateTime (q : Rat) : DateTimeFO :=
  { secs := q.floor
    nanos := (((1000000000 : Rat) * (q - (ratTrunc q : Rat))).floor).toNat
    offsetSecs := 0 }

/-- `fn json_to_date_time` (`types.rs`), parameterized by the external chrono
RFC-2822 parser `parse`. -/
def json_to_date_time (parse : String → Option DateTimeFO) (json : Json) :
    Except ConversionError (Option DateTimeFO) :=
  if json.is_number then
    .ok (some (epochDateTime (json.as_f64.getD 0)))
  else if json.is_string then
    match parse (json.as_str.getD "") with
    | some dt => .ok (some dt)
    | none => .error .timestampFormat
  else
    .ok none

/-- `Type::json_to_sql` (`types.rs`), parameterized by the external RFC-2822
parser used by the `Timestamp` arm. -/
def Ty.json_to_sql (t : Ty) (parse : String → Option DateTimeFO) (key : String)
    (json : Json) (required : Bool) : Except ConversionError SqlValue :=
  match t with
  | .bool => unwrap_if_required SqlValue.bool key json.as_bool required
  | .i32 => unwrap_if_required injOptI32 key (json.as_i64.map i32_try_from) required
  | .i64 => unwrap_if_required SqlValue.i64 key json.as_i64 required
  | .f32 => unwrap_if_required SqlValue.f32 key (json.as_f64.map (fun f => f)) required
  | .f64 => unwrap_if_required SqlValue.f64 key json.as_f64 required
  | .string => unwrap_if_required SqlValue.varchar key json.as_str required
  | .timestamp =>
    match json_to_date_time parse json with
    | .error e => .error e
    | .ok opt => unwrap_if_required SqlValue.timestamptz key opt required

/-- The OID of `Type::postgres_type()` (`types.rs`): BOOL, INT4, INT8,
FLOAT4, FLOAT8, VARCHAR, TIMESTAMPTZ. -/
def Ty.postgres_oid : Ty → Nat
  | .bool => 16
  | .i32 => 23
  | .i64 => 20
  | .f32 => 700
  | .f64 => 701
  | .string => 1043
  | .timestamp => 1184

/-- `struct Column` (`schema.rs`). -/
structure Column where
  name : String
  type_ : Ty
  header : Option String
  indexed : Bool
  required : Bool
deriving DecidableEq, Repr

/-- `struct Table` (`schema.rs`). -/
structure Table where
  name : String
  columns : List Column
deriving DecidableEq, Repr

/-- `struct App` (`schema.rs`). -/
structure App where
  app_id : String
  secret_key : String
  access_control_allow_origin : String
  tables : List String
deriving DecidableEq, Repr

/-- `struct Schema` (`schema.rs`); the two `HashMap`s are association lists
with unique keys, looked up by `lookup_assoc`. -/
structure Schema where
  tables : List (String × Table)
  apps : List (String × App)
deriving DecidableEq, Repr

/-- `enum SchemaError` (`schema.rs`); the serde_yaml payload of
`YamlParseError` is external and not carried. -/
inductive SchemaError where
  | yamlParseError
  | tableNotFound (app_id : String) (table_name : String)
  | wrongColumnType (actual : Ty) (expected : Ty)
deriving DecidableEq, Repr

/-- The header check of the first loop of `Schema::from_yaml` (`schema.rs`):
a column with a header `source` must have type `String`, the first offender
aborting the load with `WrongColumnType`. -/
def check_columns : List Column → Except SchemaError Unit
  | [] => .ok ()
  | c :: rest =>
    if c.header.isSome ∧ c.type_ ≠ .string then
      .error (.wrongColumnType c.type_ .string)
    else
      check_columns rest

/-- The first loop of `Schema::from_yaml`: assign each table its map key as
`name` and run the header check on its columns. -/
def process_tables : List (String × Table) → Except SchemaError (List (String × Table))
  | [] => .ok []
  | (key, t) :: rest =>
    match check_columns t.columns with
    | .error e => .error e
    | .ok () =>
      match process_tables rest with
      | .error e => .error e
      | .ok ts => .ok ((key, { t with name := key }) :: ts)

/-- The reference check of the second loop of `Schema::from_yaml`: every
table name an application lists must be a key of the table mapping, the
first dangling reference aborting the load with `TableNotFound`. -/
def check_app_refs (tables : List (String × Table)) (app_id : String) :
    List String → Except SchemaError Unit
  | [] => .ok ()
  | t :: rest =>
    if (lookup_assoc tables t).isSome then
      check_app_refs tables app_id rest
    else
      .error (.tableNotFound app_id t)

/-- The second loop of `Schema::from_yaml`: assign each application its map
key as `app_id` and check its table references. -/
def process_apps (tables : List (String × Table)) :
    List (String × App) → Except SchemaError (List (String × App))
  | [] => .ok []
  | (key, a) :: rest =>
    match check_app_refs tables key a.tables with
    | .error e => .error e
    | .ok () =>
      match process_apps tables rest with
      | .error e => .error e
      | .ok as2 => .ok ((key, { a with app_id := key }) :: as2)

/-- `Schema::from_yaml` (`schema.rs`) after the external serde_yaml parse:
the validation and name-assignment pass over the parsed raw schema.  (A YAML
text that fails to parse surfaces as `YamlParseError` before this pass and
never reaches it.) -/
def Schema.from_yaml_parsed (raw : Schema) : Except SchemaError Schema :=
  match process_tables raw.tables with
  | .error e => .error e
  | .ok ts =>
    match process_apps ts raw.apps with
    | .error e => .error e
    | .ok as2 => .ok { tables := ts, apps := as2 }

/-- `enum DbError` (`db.rs`); the postgres error payload is external and not
carried. -/
inductive DbError where
  | postgresError
  | conversionError (field : String) (err : ConversionError)
  | structureError (msg : String)
deriving DecidableEq, Repr

/-- Caller-supplied request headers (`rocket::http::HeaderMap`), as
name/value pairs looked up by name. -/
abbrev Headers := List (String × String)

/-- Modelled from the spec: the header-aware raw-value extraction of
`insert_event`.  The copy of `db.rs` in the tree predates the header feature
(its `insert_event` takes no header argument, while `main.rs` passes one and
`schema.rs` declares `Column.header`), so the extraction step follows the
spec: "for each Column in that Table's declared order, extract the
corresponding field (or the designated header value, for header-sourced
columns)".  A header value is text, hence a JSON string; a missing header is
an absent value. -/
def raw_value (headers : Headers) (json : Json) (column : Column) : Json :=
  match column.header with
  | some hname =>
    match lookup_assoc headers hname with
    | some v => .str v
    | none => .null
  | none => json.index column.name

/-- The conversion loop of `insert_event` (`db.rs`): for each column of the
table in declared order, convert the extracted raw value with
`Type::json_to_sql`, mapping a failure to `DbError::ConversionError` naming
the column; the first failure aborts the loop. -/
def convert_columns (parse : String → Option DateTimeFO) (headers : Headers)
    (json : Json) : List Column → Except DbError (List SqlValue)
  | [] => .ok []
  | c :: rest =>
    match c.type_.json_to_sql parse c.name (raw_value headers json c) c.required with
    | .error e => .error (.conversionError c.name e)
    | .ok v =>
      match convert_columns parse headers json rest with
      | .error e => .error e
      | .ok vs => .ok (v :: vs)

/-- The `INSERT INTO "name" (cols…) VALUES ($1…$n)` statement text built by
`insert_event` (`db.rs`). -/
def insert_query (table : Table) : String :=
  "INSERT INTO \x22" ++ table.name ++ "\x22 (" ++
    String.intercalate ", " (table.columns.map (fun c => "\x22" ++ c.name ++ "\x22")) ++
    ") VALUES (" ++
    String.intercalate ", " ((List.range table.columns.length.succ).tail.map
      (fun idx => "$" ++ toString idx)) ++
    ")"

/-- `fn insert_event` (`db.rs`): convert every column's value, then execute
the parameterized INSERT against the open transaction; `execOk` is the
external oracle for that execution, whose failure is a `PostgresError`.  The
returned list is the row of typed values the executed statement adds to the
transaction. -/
def insert_event (parse : String → Option DateTimeFO) (table : Table)
    (headers : Headers) (json : Json) (execOk : Bool) :
    Except DbError (List SqlValue) :=
  match convert_columns parse headers json table.columns with
  | .error e => .error e
  | .ok values => if execOk then .ok values else .error .postgresError

/-- A live column descriptor fetched from the Postgres catalog by
`check_table` (`db.rs`): name, type OID, and the effective-required flag
computed by the query as `attnotnull AND NOT atthasdef`. -/
structure LiveColumn where
  name : String
  type_oid : Nat
  required : Bool
deriving DecidableEq, Repr

/-- The first loop of `check_table` (`db.rs`), over the live catalog columns:
a name-matched configured column (first match, `Iterator::find`) must have
the same type OID and may not be effectively required unless configured
required; an unmatched live column may not be effectively required. -/
def check_live_columns (table : Table) : List LiveColumn → Except DbError Unit
  | [] => .ok ()
  | lc :: rest =>
    match table.columns.find? (fun c => decide (c.name = lc.name)) with
    | some c =>
      if lc.type_oid ≠ c.type_.postgres_oid then
        .error (.structureError ("table \x22" ++ table.name ++ "\x22 has column \x22" ++
          lc.name ++ "\x22 of a type that does not match the configured type"))
      else if lc.required ∧ ¬ c.required then
        .error (.structureError ("table \x22" ++ table.name ++
          "\x22 has non-nullable column \x22" ++ lc.name ++
          "\x22 which is not required in the configuration"))
      else
        check_live_columns table rest
    | none =>
      if lc.required then
        .error (.structureError ("table \x22" ++ table.name ++
          "\x22 has an extra required column \x22" ++ lc.name ++
          "\x22 that is not in the configuration"))
      else
        check_live_columns table rest

/-- The second loop of `check_table` (`db.rs`): every configured column must
have a live counterpart of the same name. -/
def check_config_columns (table : Table) (live : List LiveColumn) :
    List Column → Except DbError Unit
  | [] => .ok ()
  | c :: rest =>
    if (live.find? (fun lc => decide (lc.name = c.name))).isSome then
      check_config_columns table live rest
    else
      .error (.structureError ("table \x22" ++ table.name ++
        "\x22 is missing configured column \x22" ++ c.name ++ "\x22"))

/-- `fn check_table` (`db.rs`), on the live column descriptors the catalog
query returned for the table. -/
def check_table (table : Table) (live : List LiveColumn) : Except DbError Unit :=
  match check_live_columns table live with
  | .error e => .error e
  | .ok () => check_config_columns table live table.columns

/-- `rocket::http::Status` values produced by `events_post` (`main.rs`). -/
inductive Status where
  | badRequest
  | forbidden
  | notFound
  | internalServerError
deriving DecidableEq, Repr

/-- `struct EventPostData` (`main.rs`): the deserialized request body. -/
structure EventPostData where
  secret_key : String
  events : List Json

/-- The external-infrastructure oracle for one request: pooled-connection
acquisition, transaction start, per-statement execution (indexed by the
statement's position in the batch), and commit. -/
structure DbEnv where
  connOk : Bool
  beginOk : Bool
  execOk : Nat → Bool
  commitOk : Bool

/-- A durably visible row: target table name and the typed values inserted. -/
abbrev Row := String × List SqlValue

/-- The durable store: the rows visible to every later reader, in insertion
order. -/
abbrev Store := List Row

/-- The first per-record loop of `events_post` (`main.rs`): each record's
`"_t"` discriminator must be a present string (else 400 Bad Request) naming
a table in the application's authorized list (else 404 Not Found); the whole
batch is checked before any connection is used. -/
def check_events (app : App) : List Json → Except Status Unit
  | [] => .ok ()
  | e :: rest =>
    match (e.index "_t").as_str with
    | none => .error .badRequest
    | some table_name =>
      if table_name ∈ app.tables then check_events app rest
      else .error .notFound

/-- The distinct failure exits of the second per-record loop of `events_post`
(`main.rs`): the `ok_or(InternalServerError)` guard on the schema table
lookup, a `DbError::ConversionError` from `insert_event` (mapped to 400), and
any other `DbError` (mapped to 500). -/
inductive InsertErr where
  | tableMissing
  | conversion (field : String) (err : ConversionError)
  | postgres
deriving DecidableEq, Repr

/-- The second per-record loop of `events_post` (`main.rs`): re-read each
record's discriminator (the source `unwrap()`s it, the first loop having
guaranteed it is a string), resolve the table in the schema, and run
`insert_event` against the open transaction; `acc` is the transaction's
pending rows and `idx` the statement index fed to the execution oracle. -/
def run_inserts (schema : Schema) (parse : String → Option DateTimeFO)
    (headers : Headers) (env : DbEnv) :
    List Json → Nat → List Row → Except InsertErr (List Row)
  | [], _, acc => .ok acc
  | e :: rest, idx, acc =>
    let table_name := ((e.index "_t").as_str).getD ""
    match lookup_assoc schema.tables table_name with
    | none => .error .tableMissing
    | some table =>
      match insert_event parse table headers e (env.execOk idx) with
      | .error (.conversionError f err) => .error (.conversion f err)
      | .error _ => .error .postgres
      | .ok row => run_inserts schema parse headers env rest (idx + 1)
          (acc ++ [(table.name, row)])

/-- `fn events_post` (`main.rs`), over the durable store: `none` is the 404
of a failed application lookup; otherwise the result of the CORS-wrapped
closure.  Rows of the batch join the store only when the final commit
succeeds; every other exit leaves the transaction uncommitted, which the
postgres crate rolls back on drop. -/
def events_post (schema : Schema) (parse : String → Option DateTimeFO)
    (app_id : String) (headers : Headers) (data : EventPostData) (env : DbEnv)
    (store : Store) : Option (Except Status Unit) × Store :=
  match lookup_assoc schema.apps app_id with
  | none => (none, store)
  | some app =>
    if data.secret_key ≠ app.secret_key then
      (some (.error .forbidden), store)
    else
      match check_events app data.events with
      | .error s => (some (.error s), store)
      | .ok () =>
        if ¬ env.connOk then (some (.error .internalServerError), store)
        else if ¬ env.beginOk then (some (.error .internalServerError), store)
        else
          match run_inserts schema parse headers env data.events 0 [] with
          | .error .tableMissing => (some (.error .internalServerError), store)
          | .error (.conversion _ _) => (some (.error .badRequest), store)
          | .error .postgres => (some (.error .internalServerError), store)
          | .ok rows =>
            if env.commitOk then (some (.ok ()), store ++ rows)
            else (some (.error .internalServerError), store)

deriving instance DecidableEq for Except

/-- A parser oracle rejecting every string, used to instantiate theorems that
quantify over the external RFC-2822 parser. -/
def noParse : String → Option DateTimeFO := fun _ => none

/-- A parser oracle agreeing with chrono on one RFC-2822 fixture string
(epoch 1598918400 is Tue, 01 Sep 2020 00:00:00 +0000). -/
def rfcParseFixture : String → Option DateTimeFO := fun s =>
  if s = "Wed, 01 Sep 2020 00:00:00 +0000" then some ⟨1598918400, 0, 0⟩ else none

/-- Whether a JSON value has the input shape a (non-Timestamp) semantic type
reads: the accessor the corresponding `json_to_sql` arm applies succeeds. -/
def has_shape (t : Ty) (j : Json) : Bool :=
  match t with
  | .bool => j.as_bool.isSome
  | .i32 => j.as_i64.isSome
  | .i64 => j.as_i64.isSome
  | .f32 => j.as_f64.isSome
  | .f64 => j.as_f64.isSome
  | .string => j.as_str.isSome
  | .timestamp => j.is_number || j.is_string

/-- The per-live-column condition `check_table` enforces: a name-matched
configured column (first match) must agree on the type OID and may not be
effectively required unless configured required; an unmatched live column
may not be effectively required. -/
def live_column_ok (table : Table) (lc : LiveColumn) : Prop :=
  match table.columns.find? (fun c => decide (c.name = lc.name)) with
  | some c => lc.type_oid = c.type_.postgres_oid ∧ (lc.required = true → c.required = true)
  | none => lc.required = false

/-- The load-time invariant of a `Schema`: every table name any application
lists is a key of the table mapping. -/
def schema_invariant (s : Schema) : Prop :=
  ∀ p ∈ s.apps, ∀ t ∈ p.2.tables, (lookup_assoc s.tables t).isSome = true

/-- A dangling reference in a raw (pre-validation) schema: some application
entry lists a table name that is not a key of the table mapping. -/
def dangling_reference (raw : Schema) (app_id table_name : String) : Prop :=
  ∃ app, (app_id, app) ∈ raw.apps ∧ table_name ∈ app.tables ∧
    lookup_assoc raw.tables table_name = none

/-- Whether one record of a batch resolves its target table and has every
column value convert successfully. -/
def event_converts (schema : Schema) (parse : String → Option DateTimeFO)
    (headers : Headers) (e : Json) : Bool :=
  match lookup_assoc schema.tables (((e.index "_t").as_str).getD "") with
  | none => false
  | some t => (convert_columns parse headers e t.columns).isOk

/-- Fixture table: a header-sourced optional column followed by a required
body-sourced column. -/
def tblFix : Table :=
  { name := "events"
    columns := [
      { name := "referer", type_ := .string, header := some "Referer",
        indexed := false, required := false },
      { name := "platform", type_ := .string, header := none,
        indexed := true, required := true }] }

/-- Fixture headers. -/
def hdrsFix : Headers := [("Referer", "http://example.com/")]

/-- Fixture record carrying the required body field. -/
def jsonFix : Json := .obj [("_t", .str "events"), ("platform", .str "ios")]

/-- Fixture record missing the required `platform` field. -/
def jsonFixBad : Json := .obj [("_t", .str "events")]

/-- Fixture application authorized for `events` only. -/
def appFix : App :=
  { app_id := "app1", secret_key := "sekret", access_control_allow_origin := "*",
    tables := ["events"] }

/-- Fixture raw schema as serde_yaml would deliver it (names unassigned). -/
def rawFix : Schema :=
  { tables := [("events", { tblFix with name := "" })]
    apps := [("app1", { appFix with app_id := "" })] }

/-- The schema `Schema.from_yaml_parsed` produces from `rawFix`. -/
def schemaFix : Schema :=
  { tables := [("events", tblFix)], apps := [("app1", appFix)] }

/-- Fixture raw schema with both a header-typed column violation and a
dangling application table reference. -/
def rawFixBoth : Schema :=
  { tables := [("t", { name := ""
                       columns := [{ name := "c", type_ := .i64,
                                     header := some "X-Header",
                                     indexed := false, required := false }] })]
    apps := [("a", { app_id := "", secret_key := "s",
                     access_control_allow_origin := "*",
                     tables := ["missing"] })] }

/-- Fixture raw schema whose only flaw is a dangling table reference. -/
def rawFixDangling : Schema :=
  { tables := [("events", { tblFix with name := "" })]
    apps := [("a", { app_id := "", secret_key := "s",
                     access_control_allow_origin := "*",
                     tables := ["missing"] })] }

/-- The application entry of `rawFixBoth` and `rawFixDangling`. -/
def appDanglingFix : App :=
  { app_id := "", secret_key := "s", access_control_allow_origin := "*",
    tables := ["missing"] }

/-- An environment oracle in which every infrastructure step succeeds. -/
def envAllOk : DbEnv :=
  { connOk := true, beginOk := true, execOk := fun _ => true, commitOk := true }

/-- Fixture live catalog columns matching `tblFix` extended with a tolerated
nullable extra column. -/
def liveFix : List LiveColumn :=
  [{ name := "referer", type_oid := 1043, required := false },
   { name := "platform", type_oid := 1043, required := true },
   { name := "legacy", type_oid := 20, required := false }]

/-- C3: for every semantic type, an absent/null raw value yields
`MissingValue(columnName)` when required and stored NULL when not; a present,
well-formed value of the type's JSON shape converts to the matching native
value. -/
theorem c3_convert_contract (parse : String → Option DateTimeFO) (key : String)
    (required : Bool) :
    (∀ t : Ty, t.json_to_sql parse key .null true = .error (.missingValue key)) ∧
    (∀ t : Ty, t.json_to_sql parse key .null false = .ok .null) ∧
    (∀ b, Ty.bool.json_to_sql parse key (.bool b) required = .ok (.bool b)) ∧
    (∀ m n, JsonNum.as_i64 m = some n → i32Min ≤ n → n ≤ i32Max →
      Ty.i32.json_to_sql parse key (.num m) required = .ok (.i32 n)) ∧
    (∀ m n, JsonNum.as_i64 m = some n →
      Ty.i64.json_to_sql parse key (.num m) required = .ok (.i64 n)) ∧
    (∀ m q, JsonNum.as_f64 m = some q →
      Ty.f32.json_to_sql parse key (.num m) required = .ok (.f32 q)) ∧
    (∀ m q, JsonNum.as_f64 m = some q →
      Ty.f64.json_to_sql parse key (.num m) required = .ok (.f64 q)) ∧
    (∀ s, Ty.string.json_to_sql parse key (.str s) required = .ok (.varchar s)) ∧
    (∀ m, Ty.timestamp.json_to_sql parse key (.num m) required =
      .ok (.timestamptz (epochDateTime (m.as_f64.getD 0)))) ∧
    (∀ s dt, parse s = some dt →
      Ty.timestamp.json_to_sql parse key (.str s) required = .ok (.timestamptz dt)) := by
  refine ⟨?_, ?_, ?_, ?_, ?_, ?_, ?_, ?_, ?_, ?_⟩
  · intro t
    cases t <;>
      simp [Ty.json_to_sql, unwrap_if_required, Json.as_bool, Json.as_i64,
        Json.as_f64, Json.as_str, json_to_date_time, Json.is_number, Json.is_string]
  · intro t
    cases t <;>
      simp [Ty.json_to_sql, unwrap_if_required, Json.as_bool, Json.as_i64,
        Json.as_f64, Json.as_str, json_to_date_time, Json.is_number, Json.is_string]
  · intro b
    cases required <;> simp [Ty.json_to_sql, unwrap_if_required, Json.as_bool]
  · intro m n h h1 h2
    cases required <;>
      simp [Ty.json_to_sql, unwrap_if_required, Json.as_i64, h, i32_try_from,
        h1, h2, injOptI32]
  · intro m n h
    cases required <;> simp [Ty.json_to_sql, unwrap_if_required, Json.as_i64, h]
  · intro m q h
    cases required <;> simp [Ty.json_to_sql, unwrap_if_required, Json.as_f64, h]
  · intro m q h
    cases required <;> simp [Ty.json_to_sql, unwrap_if_required, Json.as_f64, h]
  · intro s
    cases required <;> simp [Ty.json_to_sql, unwrap_if_required, Json.as_str]
  · intro m
    cases required <;>
      simp [Ty.json_to_sql, unwrap_if_required, json_to_date_time, Json.is_number,
        Json.as_f64]
  · intro s dt h
    cases required <;>
      simp [Ty.json_to_sql, unwrap_if_required, json_to_date_time, Json.is_number,
        Json.is_string, Json.as_str, h]

theorem c3_convert_contract_witness :
    Ty.i32.json_to_sql noParse "score" (.num (.i 5)) true = .ok (.i32 5) :=
  (c3_convert_contract noParse "score" true).2.2.2.1 (.i 5) 5 rfl (by decide) (by decide)

/-- C2 (counterexample): the claim fails for a required Int32 column: the JSON integer 9999999999 converts to a stored NULL (the nested `Option` of the I32 arm), while an absent field yields `MissingValue`, so the two behaviours differ when `required` is true. -/
theorem c2_i32_overflow_counterexample :
    Ty.i32.json_to_sql noParse "score" (.num (.i 9999999999)) true = .ok .null ∧
    Ty.i32.json_to_sql noParse "score" .null true = .error (.missingValue "score") ∧
    Ty.i32.json_to_sql noParse "score" (.num (.i 9999999999)) true ≠
      Ty.i32.json_to_sql noParse "score" .null true :=
  ⟨rfl, rfl, by decide⟩

/-- C2 (amended): for an Int32 column, a JSON integer representable in 64 bits but not in 32 bits converts to stored NULL on a non-required column, identically to an absent field, and also converts to stored NULL on a required column, unlike an absent field, which yields `MissingValue(columnName)`; a JSON integer not representable in 64 bits behaves exactly like an absent field for both settings of the required flag. -/
theorem c2_i32_overflow_amended (parse : String → Option DateTimeFO) (key : String)
    (j : Json) :
    (∀ n, j.as_i64 = some n → ¬(i32Min ≤ n ∧ n ≤ i32Max) →
      Ty.i32.json_to_sql parse key j false = .ok .null ∧
      Ty.i32.json_to_sql parse key j false = Ty.i32.json_to_sql parse key .null false ∧
      Ty.i32.json_to_sql parse key j true = .ok .null ∧
      Ty.i32.json_to_sql parse key j true ≠ Ty.i32.json_to_sql parse key .null true) ∧
    (j.as_i64 = none →
      Ty.i32.json_to_sql parse key j true = Ty.i32.json_to_sql parse key .null true ∧
      Ty.i32.json_to_sql parse key j false = Ty.i32.json_to_sql parse key .null false) := by
  constructor
  · intro n h hrange
    have hmap : Option.map i32_try_from j.as_i64 = some none := by
      rw [h]
      simp [i32_try_from, hrange]
    refine ⟨?_, ?_, ?_, ?_⟩ <;>
      · simp only [Ty.json_to_sql, hmap]
        simp [unwrap_if_required, injOptI32, Json.as_i64]
  · intro h
    have hmap : Option.map i32_try_from j.as_i64 = none := by rw [h]; rfl
    constructor <;>
      · simp only [Ty.json_to_sql, hmap]
        simp [unwrap_if_required, Json.as_i64]

/-- C2 (witness): the amended theorem evaluated at the integer 9999999999. -/
theorem c2_i32_overflow_witness :
    ¬(i32Min ≤ (9999999999 : Int) ∧ (9999999999 : Int) ≤ i32Max) ∧
    Ty.i32.json_to_sql noParse "score" (.num (.i 9999999999)) false = .ok .null ∧
    Ty.i32.json_to_sql noParse "score" (.num (.i 9999999999)) true ≠
      Ty.i32.json_to_sql noParse "score" .null true :=
  ⟨by decide,
   (((c2_i32_overflow_amended noParse "score" (.num (.i 9999999999))).1 9999999999 rfl
      (by decide)).1),
   (((c2_i32_overflow_amended noParse "score" (.num (.i 9999999999))).1 9999999999 rfl
      (by decide)).2.2.2)⟩

/-- C4: Timestamp conversion accepts exactly two present shapes: a JSON number is an epoch quantity with fractional sub-second precision (1598900000.5 becomes epoch second 1598900000 with 500000000 nanoseconds), and a JSON string goes through the RFC-2822 parser, whose failure is the `TimestampFormat` error; every other JSON shape is treated as absent and follows the required/optional branch. -/
theorem c4_timestamp_shapes (parse : String → Option DateTimeFO) (key : String)
    (required : Bool) :
    (∀ j : Json, j.is_number = true →
      Ty.timestamp.json_to_sql parse key j required =
        .ok (.timestamptz (epochDateTime (j.as_f64.getD 0)))) ∧
    (Ty.timestamp.json_to_sql parse key (.num (.f (1598900000.5 : Rat))) required =
      .ok (.timestamptz ⟨1598900000, 500000000, 0⟩)) ∧
    (∀ s dt, parse s = some dt →
      Ty.timestamp.json_to_sql parse key (.str s) required = .ok (.timestamptz dt)) ∧
    (∀ s, parse s = none →
      Ty.timestamp.json_to_sql parse key (.str s) required = .error .timestampFormat) ∧
    (∀ j : Json, j.is_number = false → j.is_string = false →
      Ty.timestamp.json_to_sql parse key j required =
        Ty.timestamp.json_to_sql parse key .null required) := by
  refine ⟨?_, ?_, ?_, ?_, ?_⟩
  · intro j hj
    cases required <;>
      simp [Ty.json_to_sql, json_to_date_time, hj, unwrap_if_required]
  · have hfl : Rat.floor (1598900000.5 : Rat) = 1598900000 := by
      rw [Rat.floor_def']
      norm_num
    have htr : ratTrunc (1598900000.5 : Rat) = 1598900000 := by
      rw [ratTrunc, if_neg (by norm_num)]
      exact hfl
    have hnan : ((1000000000 : Rat) *
        ((1598900000.5 : Rat) - ((1598900000 : Int) : Rat))).floor.toNat = 500000000 := by
      have h : (1000000000 : Rat) * ((1598900000.5 : Rat) - ((1598900000 : Int) : Rat)) =
          (500000000 : Rat) := by norm_num
      rw [h, Rat.floor_def']
      norm_num
      rfl
    have hep : epochDateTime ((1598900000.5 : Rat)) = ⟨1598900000, 500000000, 0⟩ := by
      simp only [epochDateTime, htr, hfl, DateTimeFO.mk.injEq]
      simp only [true_and, and_true]
      exact hnan
    cases required <;>
      simp [Ty.json_to_sql, json_to_date_time, Json.is_number, unwrap_if_required,
        Json.as_f64, JsonNum.as_f64, hep]
  · intro s dt h
    cases required <;>
      simp [Ty.json_to_sql, json_to_date_time, Json.is_number, Json.is_string,
        Json.as_str, h, unwrap_if_required]
  · intro s h
    cases required <;>
      simp [Ty.json_to_sql, json_to_date_time, Json.is_number, Json.is_string,
        Json.as_str, h, unwrap_if_required]
  · intro j h1 h2
    have hnull : Ty.timestamp.json_to_sql parse key Json.null required =
        (if required then .error (.missingValue key) else .ok .null) := by
      cases required <;> rfl
    have hj : Ty.timestamp.json_to_sql parse key j required =
        (if required then .error (.missingValue key) else .ok .null) := by
      cases required <;>
        simp [Ty.json_to_sql, json_to_date_time, h1, h2, unwrap_if_required]
    rw [hj, hnull]

theorem isSome_false_eq_none {α : Type} {o : Option α} (h : o.isSome = false) :
    o = none := by
  cases o with
  | none => rfl
  | some v => simp at h

theorem unwrap_if_required_none {α : Type} (inj : α → SqlValue) (key : String)
    (required : Bool) :
    unwrap_if_required inj key none required =
      (if required then .error (.missingValue key) else .ok .null) := by
  cases required <;> rfl

/-- C9 (implicit): for every semantic type other than Timestamp, a present value of the wrong JSON shape is treated exactly like an absent value: `MissingValue(columnName)` when required, stored NULL when not; and the `ConversionError` type has no type-mismatch variant, only `MissingValue` and `TimestampFormat`. -/
theorem c9_wrong_shape_absent (parse : String → Option DateTimeFO) (key : String)
    (required : Bool) :
    (∀ t : Ty, t ≠ .timestamp → ∀ j : Json, has_shape t j = false →
      t.json_to_sql parse key j required = t.json_to_sql parse key .null required ∧
      (required = true → t.json_to_sql parse key j required = .error (.missingValue key)) ∧
      (required = false → t.json_to_sql parse key j required = .ok .null)) ∧
    (∀ e : ConversionError, (∃ s, e = .missingValue s) ∨ e = .timestampFormat) := by
  constructor
  · intro t ht j hshape
    have hboth : t.json_to_sql parse key j required =
        (if required then .error (.missingValue key) else .ok .null) ∧
        t.json_to_sql parse key .null required =
        (if required then .error (.missingValue key) else .ok .null) := by
      cases t
      case timestamp => exact absurd rfl ht
      case bool =>
        have hb : j.as_bool = none :=
          isSome_false_eq_none (by simpa [has_shape] using hshape)
        constructor
        · show unwrap_if_required SqlValue.bool key j.as_bool required = _
          rw [hb, unwrap_if_required_none]
        · exact unwrap_if_required_none SqlValue.bool key required
      case i32 =>
        have hb : j.as_i64 = none :=
          isSome_false_eq_none (by simpa [has_shape] using hshape)
        constructor
        · show unwrap_if_required injOptI32 key (Option.map i32_try_from j.as_i64)
            required = _
          rw [hb]
          exact unwrap_if_required_none injOptI32 key required
        · exact unwrap_if_required_none injOptI32 key required
      case i64 =>
        have hb : j.as_i64 = none :=
          isSome_false_eq_none (by simpa [has_shape] using hshape)
        constructor
        · show unwrap_if_required SqlValue.i64 key j.as_i64 required = _
          rw [hb, unwrap_if_required_none]
        · exact unwrap_if_required_none SqlValue.i64 key required
      case f32 =>
        have hb : j.as_f64 = none :=
          isSome_false_eq_none (by simpa [has_shape] using hshape)
        constructor
        · show unwrap_if_required SqlValue.f32 key
            (Option.map (fun f => f) j.as_f64) required = _
          rw [hb]
          exact unwrap_if_required_none SqlValue.f32 key required
        · exact unwrap_if_required_none SqlValue.f32 key required
      case f64 =>
        have hb : j.as_f64 = none :=
          isSome_false_eq_none (by simpa [has_shape] using hshape)
        constructor
        · show unwrap_if_required SqlValue.f64 key j.as_f64 required = _
          rw [hb, unwrap_if_required_none]
        · exact unwrap_if_required_none SqlValue.f64 key required
      case string =>
        have hb : j.as_str = none :=
          isSome_false_eq_none (by simpa [has_shape] using hshape)
        constructor
        · show unwrap_if_required SqlValue.varchar key j.as_str required = _
          rw [hb, unwrap_if_required_none]
        · exact unwrap_if_required_none SqlValue.varchar key required
    obtain ⟨h1, h2⟩ := hboth
    refine ⟨h1.trans h2.symm, ?_, ?_⟩
    · intro h
      rw [h1, h, if_pos rfl]
    · intro h
      subst h
      rw [h1]
      rfl
  · intro e
    cases e with
    | missingValue s => exact Or.inl ⟨s, rfl⟩
    | timestampFormat => exact Or.inr rfl

theorem check_live_columns_ok_iff (table : Table) (live : List LiveColumn) :
    check_live_columns table live = .ok () ↔ ∀ lc ∈ live, live_column_ok table lc := by
  induction live with
  | nil => simp [check_live_columns]
  | cons lc rest ih =>
    rcases hf : table.columns.find? (fun c => decide (c.name = lc.name)) with _ | c <;>
      simp only [check_live_columns, hf]
    · rcases hlr : lc.required with _ | _ <;>
        simp [hlr, live_column_ok, hf, ih]
    · rcases hlr : lc.required with _ | _ <;>
        rcases hcr : c.required with _ | _ <;>
        by_cases h1 : lc.type_oid = c.type_.postgres_oid <;>
        simp [h1, hlr, hcr, live_column_ok, hf, ih]

theorem check_config_columns_ok_iff (table : Table) (live : List LiveColumn)
    (cols : List Column) :
    check_config_columns table live cols = .ok () ↔
      ∀ c ∈ cols, ∃ lc ∈ live, lc.name = c.name := by
  induction cols with
  | nil => simp [check_config_columns]
  | cons c rest ih =>
    by_cases hf : (live.find? (fun lc => decide (lc.name = c.name))).isSome
    · have hex : ∃ lc ∈ live, lc.name = c.name := by
        obtain ⟨x, hx, hpx⟩ := List.find?_isSome.mp hf
        exact ⟨x, hx, of_decide_eq_true hpx⟩
      simp [check_config_columns, hf, ih, hex]
    · have hnex : ¬ ∃ lc ∈ live, lc.name = c.name := by
        intro ⟨x, hx, hpx⟩
        exact hf (List.find?_isSome.mpr ⟨x, hx, decide_eq_true hpx⟩)
      simp only [check_config_columns]
      rw [if_neg hf]
      simp [hnex]

theorem check_table_error_shape (table : Table) (live : List LiveColumn) (e : DbError)
    (h : check_table table live = .error e) : ∃ msg, e = .structureError msg := by
  have hlive : ∀ (l : List LiveColumn) (e1 : DbError),
      check_live_columns table l = .error e1 → ∃ msg, e1 = .structureError msg := by
    intro l
    induction l with
    | nil => intro e1 h2; simp [check_live_columns] at h2
    | cons lc rest ih =>
      intro e1 h2
      rcases hf : table.columns.find? (fun c => decide (c.name = lc.name)) with _ | c <;>
        simp only [check_live_columns, hf] at h2
      · split at h2
        · exact ⟨_, (Except.error.inj h2).symm⟩
        · exact ih e1 h2
      · split at h2
        · exact ⟨_, (Except.error.inj h2).symm⟩
        · split at h2
          · exact ⟨_, (Except.error.inj h2).symm⟩
          · exact ih e1 h2
  have hcfg : ∀ (cs : List Column) (e1 : DbError),
      check_config_columns table live cs = .error e1 → ∃ msg, e1 = .structureError msg := by
    intro cs
    induction cs with
    | nil => intro e1 h2; simp [check_config_columns] at h2
    | cons c rest ih =>
      intro e1 h2
      simp only [check_config_columns] at h2
      split at h2
      · exact ih e1 h2
      · exact ⟨_, (Except.error.inj h2).symm⟩
  rcases hres : check_live_columns table live with e1 | u
  · simp only [check_table, hres] at h
    obtain rfl := Except.error.inj h
    exact hlive _ _ hres
  · cases u
    simp only [check_table, hres] at h
    exact hcfg _ _ h

/-- C6: `check_table` returns Ok iff every live column satisfies the name-matched type/required conditions (a non-required unconfigured live column being ignored) and every configured column has a live counterpart; every violation is reported as a `StructureError`. -/
theorem c6_check_table_characterization (table : Table) (live : List LiveColumn) :
    (check_table table live = .ok () ↔
      ((∀ lc ∈ live, live_column_ok table lc) ∧
       (∀ c ∈ table.columns, ∃ lc ∈ live, lc.name = c.name))) ∧
    (∀ e, check_table table live = .error e → ∃ msg, e = .structureError msg) := by
  constructor
  · rcases hres : check_live_columns table live with e1 | u
    · simp only [check_table, hres]
      constructor
      · intro h; cases h
      · rintro ⟨h1, h2⟩
        rw [← check_live_columns_ok_iff] at h1
        rw [hres] at h1
        cases h1
    · cases u
      simp only [check_table, hres]
      rw [check_config_columns_ok_iff]
      constructor
      · intro h
        exact ⟨(check_live_columns_ok_iff table live).mp hres, h⟩
      · rintro ⟨h1, h2⟩
        exact h2
  · exact fun e he => check_table_error_shape table live e he

/-- C6 (witness): the characterization evaluated on a fixture table and live catalog with a tolerated nullable extra column. -/
theorem c6_check_table_characterization_witness :
    check_table tblFix liveFix = .ok () ∧
    (∀ c ∈ tblFix.columns, ∃ lc ∈ liveFix, lc.name = c.name) :=
  ⟨rfl, ((c6_check_table_characterization tblFix liveFix).1.mp rfl).2⟩

theorem convert_columns_ok_pointwise (parse : String → Option DateTimeFO)
    (headers : Headers) (json : Json) :
    ∀ (cols : List Column) (vals : List SqlValue),
      convert_columns parse headers json cols = .ok vals →
      vals.length = cols.length ∧
      ∀ (i : Nat) (c : Column), cols[i]? = some c →
        ∃ v, vals[i]? = some v ∧
          c.type_.json_to_sql parse c.name (raw_value headers json c) c.required = .ok v := by
  intro cols
  induction cols with
  | nil =>
    intro vals h
    simp only [convert_columns] at h
    obtain rfl := Except.ok.inj h
    simp
  | cons c rest ih =>
    intro vals h
    rcases hj : c.type_.json_to_sql parse c.name (raw_value headers json c) c.required
      with e | v
    · simp [convert_columns, hj] at h
    · rcases hrest : convert_columns parse headers json rest with e2 | vs
      · simp [convert_columns, hj, hrest] at h
      · simp only [convert_columns, hj, hrest] at h
        obtain rfl := Except.ok.inj h
        obtain ⟨hlen, hpt⟩ := ih vs hrest
        refine ⟨by simp [hlen], ?_⟩
        intro i ci hci
        cases i with
        | zero =>
          simp only [List.getElem?_cons_zero, Option.some.injEq] at hci
          subst hci
          exact ⟨v, by simp, hj⟩
        | succ n =>
          simp only [List.getElem?_cons_succ] at hci ⊢
          exact hpt n ci hci

/-- C5: when inserting a record, each successfully converted value, in the table's declared column order, is the Type System conversion of the record-body field of the column's name, except that a column declaring a header source takes the caller-supplied header of the designated name instead. -/
theorem c5_column_extraction (parse : String → Option DateTimeFO) (table : Table)
    (headers : Headers) (json : Json) (execOk : Bool) (vals : List SqlValue)
    (h : insert_event parse table headers json execOk = .ok vals) :
    execOk = true ∧
    vals.length = table.columns.length ∧
    ∀ (i : Nat) (c : Column), table.columns[i]? = some c →
      ∃ v, vals[i]? = some v ∧
        ((c.header = none →
          c.type_.json_to_sql parse c.name (json.index c.name) c.required = .ok v) ∧
         (∀ hname, c.header = some hname →
          c.type_.json_to_sql parse c.name
            ((lookup_assoc headers hname).elim Json.null Json.str) c.required = .ok v)) := by
  rcases hcv : convert_columns parse headers json table.columns with e | vs
  · simp [insert_event, hcv] at h
  · simp only [insert_event, hcv] at h
    rcases hex : execOk with _ | _
    · rw [hex] at h
      simp at h
    · rw [hex] at h
      simp only [if_pos] at h
      obtain rfl := Except.ok.inj h
      obtain ⟨hlen, hpt⟩ := convert_columns_ok_pointwise parse headers json
        table.columns vs hcv
      refine ⟨rfl, hlen, ?_⟩
      intro i c hci
      obtain ⟨v, hv, hconv⟩ := hpt i c hci
      refine ⟨v, hv, ?_, ?_⟩
      · intro hh
        simp only [raw_value, hh] at hconv
        exact hconv
      · intro hname hh
        simp only [raw_value, hh] at hconv
        rcases hl : lookup_assoc headers hname with _ | s <;>
          simp only [hl] at hconv <;> simpa using hconv

theorem lookup_assoc_mem {α : Type} (l : List (String × α)) (k : String) (v : α)
    (h : lookup_assoc l k = some v) : (k, v) ∈ l := by
  induction l with
  | nil => simp [lookup_assoc] at h
  | cons p rest ih =>
    obtain ⟨k1, v1⟩ := p
    simp only [lookup_assoc] at h
    by_cases hk : k1 = k
    · rw [if_pos hk] at h
      obtain rfl := Option.some.inj h
      subst hk
      exact List.mem_cons_self _ _
    · rw [if_neg hk] at h
      exact List.mem_cons_of_mem _ (ih h)

theorem check_app_refs_ok_iff (tables : List (String × Table)) (app_id : String)
    (names : List String) :
    check_app_refs tables app_id names = .ok () ↔
      ∀ t ∈ names, (lookup_assoc tables t).isSome = true := by
  induction names with
  | nil => simp [check_app_refs]
  | cons t rest ih =>
    by_cases h : (lookup_assoc tables t).isSome = true
    · simp [check_app_refs, h, ih]
    · simp only [check_app_refs, if_neg h]
      constructor
      · intro hcon
        exact Except.noConfusion hcon
      · intro hall
        exact absurd (hall t (List.mem_cons_self _ _)) h

theorem check_app_refs_error (tables : List (String × Table)) (app_id : String) :
    ∀ (names : List String) (e : SchemaError),
      check_app_refs tables app_id names = .error e →
      ∃ t, e = .tableNotFound app_id t ∧ t ∈ names ∧ lookup_assoc tables t = none := by
  intro names
  induction names with
  | nil => intro e h; simp [check_app_refs] at h
  | cons t rest ih =>
    intro e h
    by_cases hk : (lookup_assoc tables t).isSome = true
    · rw [check_app_refs, if_pos hk] at h
      obtain ⟨t1, he, hmem, hnone⟩ := ih e h
      exact ⟨t1, he, List.mem_cons_of_mem _ hmem, hnone⟩
    · rw [check_app_refs, if_neg hk] at h
      obtain rfl := Except.error.inj h
      refine ⟨t, rfl, List.mem_cons_self _ _, ?_⟩
      cases hl : lookup_assoc tables t with
      | none => rfl
      | some v => rw [hl] at hk; simp at hk

theorem process_apps_sound (tables : List (String × Table)) :
    ∀ (apps out : List (String × App)), process_apps tables apps = .ok out →
      ∀ p ∈ out, ∀ t ∈ p.2.tables, (lookup_assoc tables t).isSome = true := by
  intro apps
  induction apps with
  | nil =>
    intro out h
    simp only [process_apps] at h
    obtain rfl := Except.ok.inj h
    simp
  | cons pa rest ih =>
    intro out h
    obtain ⟨key, a⟩ := pa
    rcases hc : check_app_refs tables key a.tables with e | u
    · simp [process_apps, hc] at h
    · cases u
      rcases hr : process_apps tables rest with e | as2
      · simp [process_apps, hc, hr] at h
      · simp only [process_apps, hc, hr] at h
        obtain rfl := Except.ok.inj h
        intro p hp t ht
        rcases List.mem_cons.mp hp with rfl | hp2
        · exact (check_app_refs_ok_iff tables key a.tables).mp hc t ht
        · exact ih as2 hr p hp2 t ht

theorem process_apps_complete (tables : List (String × Table)) :
    ∀ (apps out : List (String × App)), process_apps tables apps = .ok out →
      ∀ a app, (a, app) ∈ apps →
        ∀ t ∈ app.tables, (lookup_assoc tables t).isSome = true := by
  intro apps
  induction apps with
  | nil => intro out h a app hmem; simp at hmem
  | cons pa rest ih =>
    intro out h a app hmem
    obtain ⟨key, a0⟩ := pa
    rcases hc : check_app_refs tables key a0.tables with e | u
    · simp [process_apps, hc] at h
    · cases u
      rcases hr : process_apps tables rest with e | as2
      · simp [process_apps, hc, hr] at h
      · rcases List.mem_cons.mp hmem with heq | hmem2
        · cases heq
          exact (check_app_refs_ok_iff tables a app.tables).mp hc
        · exact ih as2 hr a app hmem2

theorem process_apps_err (tables : List (String × Table)) :
    ∀ (apps : List (String × App)) (e : SchemaError),
      process_apps tables apps = .error e →
      ∃ a app t, (a, app) ∈ apps ∧ e = .tableNotFound a t ∧ t ∈ app.tables ∧
        lookup_assoc tables t = none := by
  intro apps
  induction apps with
  | nil => intro e h; simp [process_apps] at h
  | cons pa rest ih =>
    intro e h
    obtain ⟨key, a⟩ := pa
    rcases hc : check_app_refs tables key a.tables with e1 | u
    · simp only [process_apps, hc] at h
      obtain rfl := Except.error.inj h
      obtain ⟨t, he, hmem, hnone⟩ := check_app_refs_error tables key a.tables e1 hc
      exact ⟨key, a, t, List.mem_cons_self _ _, he, hmem, hnone⟩
    · cases u
      rcases hr : process_apps tables rest with e2 | as2
      · simp only [process_apps, hc, hr] at h
        obtain rfl := Except.error.inj h
        obtain ⟨a1, app1, t, hmem, he, hts, hnone⟩ := ih e2 hr
        exact ⟨a1, app1, t, List.mem_cons_of_mem _ hmem, he, hts, hnone⟩
      · simp [process_apps, hc, hr] at h

theorem process_tables_keys :
    ∀ (l out : List (String × Table)), process_tables l = .ok out →
      ∀ k, (lookup_assoc out k).isSome = (lookup_assoc l k).isSome := by
  intro l
  induction l with
  | nil =>
    intro out h k
    simp only [process_tables] at h
    obtain rfl := Except.ok.inj h
    rfl
  | cons p rest ih =>
    intro out h k
    obtain ⟨key, t⟩ := p
    rcases hc : check_columns t.columns with e | u
    · simp [process_tables, hc] at h
    · cases u
      rcases hr : process_tables rest with e | ts
      · simp [process_tables, hc, hr] at h
      · simp only [process_tables, hc, hr] at h
        obtain rfl := Except.ok.inj h
        by_cases hk : key = k
        · simp [lookup_assoc, hk]
        · simp [lookup_assoc, hk, ih ts hr k]

theorem from_yaml_parsed_invariant (raw schema : Schema)
    (h : Schema.from_yaml_parsed raw = .ok schema) : schema_invariant schema := by
  rcases ht : process_tables raw.tables with e | ts
  · simp [Schema.from_yaml_parsed, ht] at h
  · rcases ha : process_apps ts raw.apps with e | as2
    · simp [Schema.from_yaml_parsed, ht, ha] at h
    · simp only [Schema.from_yaml_parsed, ht, ha] at h
      obtain rfl := Except.ok.inj h
      intro p hp t ht2
      exact process_apps_sound ts raw.apps as2 ha p hp t ht2

theorem check_events_ok_iff (app : App) (events : List Json) :
    check_events app events = .ok () ↔
      ∀ e ∈ events, ∃ name, (e.index "_t").as_str = some name ∧ name ∈ app.tables := by
  induction events with
  | nil => simp [check_events]
  | cons e rest ih =>
    rcases hs : (e.index "_t").as_str with _ | name <;>
      simp only [check_events, hs]
    · constructor
      · intro h
        exact Except.noConfusion h
      · intro hall
        obtain ⟨nm, hnm, _⟩ := hall e (List.mem_cons_self _ _)
        rw [hs] at hnm
        exact Option.noConfusion hnm
    · by_cases hmem : name ∈ app.tables
      · rw [if_pos hmem, ih]
        constructor
        · intro hall e2 he2
          rcases List.mem_cons.mp he2 with rfl | h2
          · exact ⟨name, hs, hmem⟩
          · exact hall e2 h2
        · intro hall e2 he2
          exact hall e2 (List.mem_cons_of_mem _ he2)
      · rw [if_neg hmem]
        constructor
        · intro h
          exact Except.noConfusion h
        · intro hall
          obtain ⟨nm, hnm, hmm⟩ := hall e (List.mem_cons_self _ _)
          rw [hs] at hnm
          obtain rfl := Option.some.inj hnm
          exact absurd hmm hmem

/-- C8 (amended): a schema whose applications reference a missing table never loads; when the table pass succeeds (no header-typed column violation), the load fails with `TableNotFound` naming a dangling reference, fail-fast with no partial schema; and every successfully loaded schema satisfies the reference invariant. -/
theorem c8_schema_load_amended (raw : Schema) :
    (∀ schema, Schema.from_yaml_parsed raw = .ok schema → schema_invariant schema) ∧
    (∀ app_id table_name, dangling_reference raw app_id table_name →
      ∀ schema, Schema.from_yaml_parsed raw ≠ .ok schema) ∧
    (∀ app_id table_name, dangling_reference raw app_id table_name →
      ∀ ts, process_tables raw.tables = .ok ts →
      ∃ a t, Schema.from_yaml_parsed raw = .error (.tableNotFound a t) ∧
        dangling_reference raw a t) := by
  refine ⟨?_, ?_, ?_⟩
  · intro schema h
    exact from_yaml_parsed_invariant raw schema h
  · rintro app_id table_name ⟨app, hmem, htab, hnone⟩ schema hok
    rcases ht : process_tables raw.tables with e | ts
    · simp [Schema.from_yaml_parsed, ht] at hok
    · rcases ha : process_apps ts raw.apps with e | as2
      · simp [Schema.from_yaml_parsed, ht, ha] at hok
      · have hsome := process_apps_complete ts raw.apps as2 ha app_id app hmem
          table_name htab
        rw [process_tables_keys raw.tables ts ht table_name, hnone] at hsome
        simp at hsome
  · rintro app_id table_name hd ts ht
    rcases ha : process_apps ts raw.apps with e | as2
    · obtain ⟨a1, app1, t1, hmem, he, hts, hnone⟩ := process_apps_err ts raw.apps e ha
      subst he
      refine ⟨a1, t1, ?_, app1, hmem, hts, ?_⟩
      · simp [Schema.from_yaml_parsed, ht, ha]
      · have := process_tables_keys raw.tables ts ht t1
        rw [hnone] at this
        cases hl : lookup_assoc raw.tables t1 with
        | none => rfl
        | some v => rw [hl] at this; simp at this
    · obtain ⟨app, hmem, htab, hnone⟩ := hd
      have hsome := process_apps_complete ts raw.apps as2 ha app_id app hmem
        table_name htab
      rw [process_tables_keys raw.tables ts ht table_name, hnone] at hsome
      simp at hsome

/-- C8 (counterexample): with both a header-typed column violation and a dangling application reference present, `from_yaml` fails with `WrongColumnType`, not `TableNotFound`, because the table loop runs first; so the claim's unconditional `TableNotFound` does not hold. -/
theorem c8_schema_load_counterexample :
    (("a", appDanglingFix) ∈ rawFixBoth.apps) ∧
    ("missing" ∈ appDanglingFix.tables) ∧
    lookup_assoc rawFixBoth.tables "missing" = none ∧
    Schema.from_yaml_parsed rawFixBoth = .error (.wrongColumnType .i64 .string) ∧
    Schema.from_yaml_parsed rawFixBoth ≠ .error (.tableNotFound "a" "missing") := by
  refine ⟨by simp [rawFixBoth, appDanglingFix], by simp [appDanglingFix], rfl, rfl, by decide⟩

/-- C8 (witness): the amended theorem evaluated on a raw schema whose only flaw is a dangling table reference. -/
theorem c8_schema_load_witness :
    ∃ a t, Schema.from_yaml_parsed rawFixDangling = .error (.tableNotFound a t) ∧
      dangling_reference rawFixDangling a t :=
  (c8_schema_load_amended rawFixDangling).2.2 "a" "missing"
    ⟨appDanglingFix, by simp [rawFixDangling, appDanglingFix], by simp [appDanglingFix], rfl⟩
    _ rfl

theorem run_inserts_no_tableMissing (schema : Schema)
    (parse : String → Option DateTimeFO) (headers : Headers) (env : DbEnv) :
    ∀ (events : List Json) (idx : Nat) (acc : List Row),
      (∀ e ∈ events,
        (lookup_assoc schema.tables (((e.index "_t").as_str).getD "")).isSome = true) →
      run_inserts schema parse headers env events idx acc ≠ .error .tableMissing := by
  intro events
  induction events with
  | nil =>
    intro idx acc h hcon
    simp [run_inserts] at hcon
  | cons e rest ih =>
    intro idx acc h hcon
    have he := h e (List.mem_cons_self _ _)
    rcases hl : lookup_assoc schema.tables (((e.index "_t").as_str).getD "")
      with _ | table
    · rw [hl] at he
      simp at he
    · rcases hins : insert_event parse table headers e (env.execOk idx) with er | row
      · cases er <;> simp [run_inserts, hl, hins] at hcon
      · simp only [run_inserts, hl, hins] at hcon
        exact ih (idx + 1) (acc ++ [(table.name, row)])
          (fun e2 he2 => h e2 (List.mem_cons_of_mem _ he2)) hcon

/-- C10 (implicit): for a schema produced by a successful load, once the authorization check of the batch has passed, the per-record table lookup in the insert loop can never fail, so its internal-server-error guard is unreachable. -/
theorem c10_table_lookup_never_fails (raw schema : Schema) (parse : String → Option DateTimeFO)
    (headers : Headers) (env : DbEnv) (app_id : String) (app : App)
    (events : List Json) (idx : Nat) (acc : List Row)
    (hload : Schema.from_yaml_parsed raw = .ok schema)
    (happ : lookup_assoc schema.apps app_id = some app)
    (hcheck : check_events app events = .ok ()) :
    run_inserts schema parse headers env events idx acc ≠ .error .tableMissing := by
  have hinv : schema_invariant schema := from_yaml_parsed_invariant raw schema hload
  have happmem := lookup_assoc_mem _ _ _ happ
  apply run_inserts_no_tableMissing
  intro e he
  obtain ⟨name, hname, hmem⟩ := (check_events_ok_iff app events).mp hcheck e he
  rw [hname]
  exact hinv (app_id, app) happmem name hmem

theorem insert_event_ok (parse : String → Option DateTimeFO) (table : Table)
    (headers : Headers) (json : Json) (execOk : Bool) (row : List SqlValue)
    (h : insert_event parse table headers json execOk = .ok row) :
    convert_columns parse headers json table.columns = .ok row ∧ execOk = true := by
  rcases hcv : convert_columns parse headers json table.columns with e | vs
  · simp [insert_event, hcv] at h
  · simp only [insert_event, hcv] at h
    rcases hex : execOk with _ | _
    · rw [hex] at h
      simp at h
    · rw [hex] at h
      simp only [if_pos] at h
      obtain rfl := Except.ok.inj h
      exact ⟨rfl, rfl⟩

theorem run_inserts_ok_facts (schema : Schema) (parse : String → Option DateTimeFO)
    (headers : Headers) (env : DbEnv) :
    ∀ (events : List Json) (idx : Nat) (acc : List Row) (rows : List Row),
      run_inserts schema parse headers env events idx acc = .ok rows →
      (∀ e ∈ events, event_converts schema parse headers e = true) ∧
      (∀ k, k < events.length → env.execOk (idx + k) = true) := by
  intro events
  induction events with
  | nil =>
    intro idx acc rows h
    exact ⟨by simp, by simp⟩
  | cons e rest ih =>
    intro idx acc rows h
    rcases hl : lookup_assoc schema.tables (((e.index "_t").as_str).getD "")
      with _ | table
    · simp [run_inserts, hl] at h
    · rcases hins : insert_event parse table headers e (env.execOk idx) with er | row
      · cases er <;> simp [run_inserts, hl, hins] at h
      · simp only [run_inserts, hl, hins] at h
        obtain ⟨hconv, hexec⟩ := ih (idx + 1) _ rows h
        obtain ⟨hcv, hex⟩ := insert_event_ok parse table headers e _ row hins
        constructor
        · intro e2 he2
          rcases List.mem_cons.mp he2 with rfl | h2
          · simp only [event_converts, hl, hcv, Except.isOk, Except.toBool]
          · exact hconv e2 h2
        · intro k hk
          cases k with
          | zero => simpa using hex
          | succ n =>
            have := hexec n (by simpa using hk)
            rwa [show idx + 1 + n = idx + (n + 1) by omega] at this

theorem events_post_store (schema : Schema) (parse : String → Option DateTimeFO)
    (app_id : String) (headers : Headers) (data : EventPostData) (env : DbEnv)
    (store : Store) :
    ((events_post schema parse app_id headers data env store).1 = some (.ok ()) ∧
     env.commitOk = true ∧
     ∃ rows, run_inserts schema parse headers env data.events 0 [] = .ok rows ∧
       (events_post schema parse app_id headers data env store).2 = store ++ rows) ∨
    ((events_post schema parse app_id headers data env store).1 ≠ some (.ok ()) ∧
     (events_post schema parse app_id headers data env store).2 = store) := by
  rcases ha : lookup_assoc schema.apps app_id with _ | app
  · right
    simp [events_post, ha]
  · by_cases hs : data.secret_key ≠ app.secret_key
    · right
      simp [events_post, ha, hs]
    · rcases hc : check_events app data.events with e | u
      · right
        simp [events_post, ha, hs, hc]
      · cases u
        by_cases hconn : env.connOk = true
        · by_cases hbegin : env.beginOk = true
          · rcases hr : run_inserts schema parse headers env data.events 0 [] with er | rows
            · right
              cases er <;> simp [events_post, ha, hs, hc, hconn, hbegin, hr]
            · by_cases hcommit : env.commitOk = true
              · left
                refine ⟨?_, hcommit, rows, rfl, ?_⟩ <;>
                  simp [events_post, ha, hs, hc, hconn, hbegin, hr, hcommit]
              · right
                simp [events_post, ha, hs, hc, hconn, hbegin, hr, hcommit]
          · right
            simp [events_post, ha, hs, hc, hconn, hbegin]
        · right
          simp [events_post, ha, hs, hc, hconn]

theorem check_events_first_error (app : App) :
    ∀ (pre : List Json) (e : Json) (post : List Json),
      (∀ e2 ∈ pre, ∃ name, (e2.index "_t").as_str = some name ∧ name ∈ app.tables) →
      (((e.index "_t").as_str = none →
        check_events app (pre ++ e :: post) = .error .badRequest) ∧
       (∀ name, (e.index "_t").as_str = some name → name ∉ app.tables →
        check_events app (pre ++ e :: post) = .error .notFound)) := by
  intro pre
  induction pre with
  | nil =>
    intro e post hpre
    constructor
    · intro hn
      simp only [List.nil_append, check_events, hn]
    · intro name hn hnm
      simp only [List.nil_append, check_events, hn, if_neg hnm]
  | cons p rest ih =>
    intro e post hpre
    obtain ⟨nm, hnm, hmem⟩ := hpre p (List.mem_cons_self _ _)
    have ihh := ih e post (fun e2 h2 => hpre e2 (List.mem_cons_of_mem _ h2))
    constructor
    · intro hn
      simp only [List.cons_append, check_events, hnm, if_pos hmem]
      exact ihh.1 hn
    · intro name hn hnmem
      simp only [List.cons_append, check_events, hnm, if_pos hmem]
      exact ihh.2 name hn hnmem

/-- C7: fixed precedence of the ingest checks: unknown application id yields the not-found result, a known application with a wrong secret yields forbidden, and the whole-batch discriminator check, missing/non-string discriminator yielding bad-request and an unauthorized table name yielding not-found regardless of the schema's tables, runs and decides the response before any connection oracle is consulted (the result does not depend on `env` and the store is unchanged). -/
theorem c7_ingest_precedence (schema : Schema) (parse : String → Option DateTimeFO)
    (app_id : String) (headers : Headers) (data : EventPostData) (env : DbEnv)
    (store : Store) :
    (lookup_assoc schema.apps app_id = none →
      events_post schema parse app_id headers data env store = (none, store)) ∧
    (∀ app, lookup_assoc schema.apps app_id = some app →
      data.secret_key ≠ app.secret_key →
      events_post schema parse app_id headers data env store =
        (some (.error .forbidden), store)) ∧
    (∀ app s, lookup_assoc schema.apps app_id = some app →
      data.secret_key = app.secret_key →
      check_events app data.events = .error s →
      events_post schema parse app_id headers data env store =
        (some (.error s), store)) ∧
    (∀ app, check_events app data.events = .ok () ↔
      ∀ e ∈ data.events, ∃ name, (e.index "_t").as_str = some name ∧
        name ∈ app.tables) ∧
    (∀ app (pre : List Json) (e : Json) (post : List Json),
      data.events = pre ++ e :: post →
      (∀ e2 ∈ pre, ∃ name, (e2.index "_t").as_str = some name ∧
        name ∈ app.tables) →
      (((e.index "_t").as_str = none →
        check_events app data.events = .error .badRequest) ∧
       (∀ name, (e.index "_t").as_str = some name → name ∉ app.tables →
        check_events app data.events = .error .notFound))) := by
  refine ⟨?_, ?_, ?_, ?_, ?_⟩
  · intro h
    simp [events_post, h]
  · intro app ha hs
    simp [events_post, ha, hs]
  · intro app s ha hs hc
    simp [events_post, ha, hs, hc]
  · intro app
    exact check_events_ok_iff app data.events
  · intro app pre e post hsplit hpre
    rw [hsplit]
    exact check_events_first_error app pre e post hpre

/-- C1: batch atomicity of ingest: unless the handler returns success the store is unchanged (the open transaction is rolled back); success implies the commit succeeded, every record of the batch converted, every statement executed, and exactly the batch's rows were appended; a batch containing a record that fails conversion never succeeds and leaves the store unchanged, and a conversion failure reaching the insert loop surfaces as bad-request. -/
theorem c1_batch_atomicity (schema : Schema) (parse : String → Option DateTimeFO)
    (app_id : String) (headers : Headers) (data : EventPostData) (env : DbEnv)
    (store : Store) :
    ((events_post schema parse app_id headers data env store).1 ≠ some (.ok ()) →
      (events_post schema parse app_id headers data env store).2 = store) ∧
    ((events_post schema parse app_id headers data env store).1 = some (.ok ()) →
      env.commitOk = true ∧
      (∀ e ∈ data.events, event_converts schema parse headers e = true) ∧
      (∀ k, k < data.events.length → env.execOk k = true) ∧
      ∃ rows, run_inserts schema parse headers env data.events 0 [] = .ok rows ∧
        (events_post schema parse app_id headers data env store).2 = store ++ rows) ∧
    ((∃ e ∈ data.events, event_converts schema parse headers e = false) →
      (events_post schema parse app_id headers data env store).1 ≠ some (.ok ()) ∧
      (events_post schema parse app_id headers data env store).2 = store) ∧
    (∀ app f err, lookup_assoc schema.apps app_id = some app →
      data.secret_key = app.secret_key →
      check_events app data.events = .ok () →
      env.connOk = true → env.beginOk = true →
      run_inserts schema parse headers env data.events 0 [] =
        .error (.conversion f err) →
      events_post schema parse app_id headers data env store =
        (some (.error .badRequest), store)) := by
  have hmaster := events_post_store schema parse app_id headers data env store
  have hsucc : (events_post schema parse app_id headers data env store).1 =
      some (.ok ()) →
      env.commitOk = true ∧
      (∀ e ∈ data.events, event_converts schema parse headers e = true) ∧
      (∀ k, k < data.events.length → env.execOk k = true) ∧
      ∃ rows, run_inserts schema parse headers env data.events 0 [] = .ok rows ∧
        (events_post schema parse app_id headers data env store).2 =
          store ++ rows := by
    intro hok
    rcases hmaster with ⟨_, hcommit, rows, hrun, hstore⟩ | ⟨hne, _⟩
    · obtain ⟨hconv, hexec⟩ := run_inserts_ok_facts schema parse headers env
        data.events 0 [] rows hrun
      exact ⟨hcommit, hconv, fun k hk => by simpa using hexec k hk, rows, hrun, hstore⟩
    · exact absurd hok hne
  refine ⟨?_, hsucc, ?_, ?_⟩
  · intro hne
    rcases hmaster with ⟨hok, _⟩ | ⟨_, hstore⟩
    · exact absurd hok hne
    · exact hstore
  · rintro ⟨e, he, hbad⟩
    have hne : (events_post schema parse app_id headers data env store).1 ≠
        some (.ok ()) := by
      intro hok
      have := (hsucc hok).2.1 e he
      rw [hbad] at this
      cases this
    refine ⟨hne, ?_⟩
    rcases hmaster with ⟨hok, _⟩ | ⟨_, hstore⟩
    · exact absurd hok hne
    · exact hstore
  · intro app f err ha hs hc hconn hbegin hr
    simp [events_post, ha, hs, hc, hconn, hbegin, hr]

/-- C4 (witness): the timestamp theorem evaluated on the RFC-2822 fixture
parser, the failing string, and the fractional epoch number. -/
theorem c4_timestamp_shapes_witness :
    Ty.timestamp.json_to_sql rfcParseFixture "t"
      (.str "Wed, 01 Sep 2020 00:00:00 +0000") true =
      .ok (.timestamptz ⟨1598918400, 0, 0⟩) ∧
    Ty.timestamp.json_to_sql rfcParseFixture "t" (.str "not-a-date") true =
      .error .timestampFormat ∧
    Ty.timestamp.json_to_sql rfcParseFixture "t"
      (.num (.f (1598900000.5 : Rat))) true =
      .ok (.timestamptz ⟨1598900000, 500000000, 0⟩) :=
  ⟨(c4_timestamp_shapes rfcParseFixture "t" true).2.2.1
     "Wed, 01 Sep 2020 00:00:00 +0000" ⟨1598918400, 0, 0⟩ rfl,
   (c4_timestamp_shapes rfcParseFixture "t" true).2.2.2.1 "not-a-date" rfl,
   (c4_timestamp_shapes rfcParseFixture "t" true).2.1⟩

/-- C9 (witness): a JSON string supplied for a required Int64 column yields
`MissingValue`, exactly like an absent field. -/
theorem c9_wrong_shape_absent_witness :
    Ty.i64.json_to_sql noParse "n" (.str "x") true =
      .error (.missingValue "n") :=
  (((c9_wrong_shape_absent noParse "n" true).1 .i64 (by decide)
    (.str "x") rfl).2.1) rfl

/-- C5 (witness): the extraction theorem evaluated on a fixture table whose
first column is header-sourced and whose second is body-sourced. -/
theorem c5_column_extraction_witness :
    ([SqlValue.varchar "http://example.com/", SqlValue.varchar "ios"]).length =
      tblFix.columns.length :=
  (c5_column_extraction noParse tblFix hdrsFix jsonFix true
    [SqlValue.varchar "http://example.com/", SqlValue.varchar "ios"] rfl).2.1

/-- C7 (witness): a wrong secret for a known application yields forbidden
with the store unchanged, and an unknown application id yields the not-found
result. -/
theorem c7_ingest_precedence_witness :
    events_post schemaFix noParse "app1" [] ⟨"wrong", [jsonFix]⟩ envAllOk [] =
      (some (.error .forbidden), []) ∧
    events_post schemaFix noParse "other" [] ⟨"sekret", [jsonFix]⟩ envAllOk [] =
      (none, []) :=
  ⟨(c7_ingest_precedence schemaFix noParse "app1" [] ⟨"wrong", [jsonFix]⟩
      envAllOk []).2.1 appFix rfl (by decide),
   (c7_ingest_precedence schemaFix noParse "other" [] ⟨"sekret", [jsonFix]⟩
      envAllOk []).1 rfl⟩

/-- C1 (witness): a batch whose record is missing its required `platform`
field never succeeds and leaves the store unchanged. -/
theorem c1_batch_atomicity_witness :
    (events_post schemaFix noParse "app1" [] ⟨"sekret", [jsonFixBad]⟩
      envAllOk []).1 ≠ some (.ok ()) ∧
    (events_post schemaFix noParse "app1" [] ⟨"sekret", [jsonFixBad]⟩
      envAllOk []).2 = [] :=
  (c1_batch_atomicity schemaFix noParse "app1" [] ⟨"sekret", [jsonFixBad]⟩
    envAllOk []).2.2.1 ⟨jsonFixBad, by simp, rfl⟩

/-- C10 (witness): the unreachability theorem evaluated on the loaded fixture
schema, its application, and an authorized batch. -/
theorem c10_table_lookup_never_fails_witness :
    run_inserts schemaFix noParse [] envAllOk [jsonFix] 0 [] ≠
      .error .tableMissing :=
  c10_table_lookup_never_fails rawFix schemaFix noParse [] envAllOk "app1"
    appFix [jsonFix] 0 [] rfl rfl rfl
